import Mathlib

/-!
# Verification of `offroad_navigation` core utilities

Shallow embedding of `src/models/network_utils.py` (branch selection,
image normalization, spatial-softmax keypoint extraction) and
`src/scripts/train.py` (epoch-level training/validation loop), together
with theorems settling the specification claims about them.

Conventions:
* float tensors are embedded as `ℚ`-valued functions where the claims are
  exact-arithmetic facts, and as `ℝ`-valued functions where a claim is a
  limit statement (spatial softmax);
* fallible tensor operations (indexing, division) return `Option`;
* a per-(sample, channel) slice of a batched op is modelled by a function
  of the remaining indices, since the batched op acts independently on
  each slice.
-/

open Filter Topology

/-- Embeds `Tensor.long()` (and Python `int(...)`): conversion of a float
to an integer truncates toward zero. -/
def truncToInt (q : ℚ) : ℤ := if 0 ≤ q then ⌊q⌋ else ⌈q⌉

/-- Semantics of indexing one axis of size `n` with an integer entry of an
index tensor, as in `branches[torch.arange(B), command]`
(`network_utils.py` line 24).  PyTorch advanced indexing is
NumPy-compatible: an entry `i` with `0 ≤ i < n` selects position `i`, a
negative entry with `-n ≤ i < 0` wraps around and selects position
`n + i`, and any other entry raises `IndexError` (here `none`). -/
def torchIndex (n : ℕ) (i : ℤ) : Option (Fin n) :=
  if h : 0 ≤ i ∧ i < (n : ℤ) then some ⟨i.toNat, by omega⟩
  else if h2 : -(n : ℤ) ≤ i ∧ i < 0 then some ⟨(i + n).toNat, by omega⟩
  else none

/-- Embeds `select_branch` (`network_utils.py` lines 12-24):
`command = command.long(); return branches[torch.arange(B), command]`.
`branches` is the stacked (B, N, *) tensor with the trailing `*` packed
into `α`; `command` holds one float entry per sample (the documented
interface: command has shape (B), so a length mismatch is a shape
error).  Row `i` of the result is `branches[i][command[i]]` under
`torchIndex` semantics; any failing row aborts the whole op. -/
def select_branch {α : Type} : List (List α) → List ℚ → Option (List α)
  | [], [] => some []
  | row :: bs, c :: cs => do
      let j ← torchIndex row.length (truncToInt c)
      let rest ← select_branch bs cs
      return row.get j :: rest
  | _, _ => none

/-- Embeds `Normalize.forward` (`network_utils.py` lines 44-57): mean and
std are reshaped to (1, 3, 1, 1), so they are per-channel over exactly 3
channels and broadcast over batch, height and width; the output is
`(x - mean) / std` elementwise. -/
def Normalize.forward (mean std : Fin 3 → ℚ) (x : ℕ → Fin 3 → ℕ → ℕ → ℚ) :
    ℕ → Fin 3 → ℕ → ℕ → ℚ :=
  fun n c h w => (x n c h w - mean c) / std c

/-- Embeds `NormalizeV2.forward` (`network_utils.py` lines 60-75): the
stats are moved to the input's device (`.to(x.device)`, numerically the
identity) on every call, then `(x - mean) / std` is returned
elementwise. -/
def NormalizeV2.forward (mean std : Fin 3 → ℚ) (x : ℕ → Fin 3 → ℕ → ℕ → ℚ) :
    ℕ → Fin 3 → ℕ → ℕ → ℚ :=
  fun n c h w => (x n c h w - id (mean c)) / id (std c)

/-- The temperature attribute of a spatial-softmax module: either a fixed
scalar or a trainable parameter with an initial value. -/
inductive TempParam where
  | fixed : ℚ → TempParam
  | trainable : ℚ → TempParam
deriving DecidableEq

/-- Embeds line 100 of `network_utils.py` (and the identical line 157 of
`SpatialSoftmaxV2.__init__`):
`self.temperature = nn.Parameter(torch.ones(1) * temperature) if temperature else 1.0`.
The argument defaults to `None` (`none` here); Python truthiness makes
both `None` and `0.0` falsy, so either yields the fixed value `1.0`,
while a nonzero temperature yields a trainable parameter initialized to
`1 * temperature`. -/
def initTemperature : Option ℚ → TempParam
  | none => .fixed 1
  | some t => if t = 0 then .fixed 1 else .trainable (1 * t)

/-- The scalar value a `TempParam` contributes to `feature / self.temperature`. -/
def tempValue : TempParam → ℚ
  | .fixed v => v
  | .trainable v => v

/-- Python float division by an integer count: `total_loss / len(loader)`
raises `ZeroDivisionError` when the count is zero. -/
def pyDiv (a : ℚ) (n : ℕ) : Option ℚ := if n = 0 then none else some (a / n)

/-- The per-batch training loop body of `train_epoch` (`train.py` lines
32-44): starting from an accumulated loss and a training state (model
parameters together with optimizer state), each batch contributes
`loss_fn(model(obs), act)` computed at the current state, and the state
is advanced by `loss.backward(); optimizer.step()`, abstracted as
`optStep`. -/
def train_epoch_body {σ β : Type} (lossOf : σ → β → ℚ) (optStep : σ → β → σ) :
    ℚ × σ → List β → ℚ × σ
  | acc, [] => acc
  | (total, s), b :: bs =>
      train_epoch_body lossOf optStep (total + lossOf s b, optStep s b) bs

/-- Embeds `train_epoch` (`train.py` lines 27-49): runs the per-batch body
over the loader's batches and returns `total_loss / len(loader)` together
with the final training state. -/
def train_epoch {σ β : Type} (lossOf : σ → β → ℚ) (optStep : σ → β → σ)
    (s₀ : σ) (batches : List β) : Option ℚ × σ :=
  let r := train_epoch_body lossOf optStep (0, s₀) batches
  (pyDiv r.1 batches.length, r.2)

/-- The per-batch validation loop body of `validate_epoch` (`train.py`
lines 56-64): inside `torch.inference_mode()` each batch contributes the
same `loss_fn(model(obs), act)` at the current state, and the state is
left untouched (no backward pass, no optimizer call appears in the
loop). -/
def validate_epoch_body {σ β : Type} (lossOf : σ → β → ℚ) :
    ℚ × σ → List β → ℚ × σ
  | acc, [] => acc
  | (total, s), b :: bs => validate_epoch_body lossOf (total + lossOf s b, s) bs

/-- Embeds `validate_epoch` (`train.py` lines 51-66): runs the validation
body over the loader's batches and returns `total_loss / len(loader)`
together with the final state.  Unlike `train_epoch` it takes no
`optStep`: the source function receives no optimizer at all. -/
def validate_epoch {σ β : Type} (lossOf : σ → β → ℚ) (s₀ : σ)
    (batches : List β) : Option ℚ × σ :=
  let r := validate_epoch_body lossOf (0, s₀) batches
  (pyDiv r.1 batches.length, r.2)

/-- The sequence of per-batch scalar losses a training epoch records
(`loss.item()` at line 43), with the state advancing between batches. -/
def batch_losses {σ β : Type} (lossOf : σ → β → ℚ) (optStep : σ → β → σ) :
    σ → List β → List ℚ
  | _, [] => []
  | s, b :: bs => lossOf s b :: batch_losses lossOf optStep (optStep s b) bs

/-- Embeds `val_size = int(len(dataset) * cfg.data.val_ratio)`
(`train.py` line 87). -/
def val_size (n : ℕ) (r : ℚ) : ℤ := truncToInt (n * r)

/-- Embeds the batching of a `DataLoader` over a dataset: consecutive
chunks of `bsz` samples, the final chunk possibly smaller; an empty
dataset yields zero batches. -/
def loaderBatches {β : Type} (bsz : ℕ) : List β → List (List β)
  | [] => []
  | x :: xs => (x :: xs.take (bsz - 1)) :: loaderBatches bsz (xs.drop (bsz - 1))
termination_by l => l.length
decreasing_by simp [List.length_drop]; omega

noncomputable section

/-- Embeds `np.linspace(-1., 1., n)`: `n` evenly spaced points from `-1`
to `1` inclusive; for `n = 1` NumPy returns just the start point `-1`. -/
def linspace (n : ℕ) (i : ℕ) : ℝ :=
  if n ≤ 1 then -1 else -1 + 2 * (i : ℝ) / ((n : ℝ) - 1)

/-- Value at flat index `k` of the `pos_x` buffer of `SpatialSoftmax`
(`network_utils.py` lines 103-107).  `np.meshgrid(linspace(-1,1,H),
linspace(-1,1,W))` returns arrays of shape `(W, H)` whose first component
is `X[i, j] = linspace(-1,1,H)[j]`; `reshape(-1)` flattens row-major, so
flat index `k = i * H + j` carries `pos_x[k] = linspace(-1,1,H)[k % H]`. -/
def pos_x (H : ℕ) (k : ℕ) : ℝ := linspace H (k % H)

/-- Value at flat index `k` of the `pos_y` buffer: the second meshgrid
component is `Y[i, j] = linspace(-1,1,W)[i]`, so after row-major
flattening `pos_y[k] = linspace(-1,1,W)[k / H]`. -/
def pos_y (H W : ℕ) (k : ℕ) : ℝ := linspace W (k / H)

/-- Softmax weight over the flattened spatial axis for one
(sample, channel) row (`network_utils.py` line 116):
`weight = F.softmax(feature / self.temperature, dim=-1)`. -/
def softmaxWeight (n : ℕ) (f : Fin n → ℝ) (T : ℝ) (j : Fin n) : ℝ :=
  Real.exp (f j / T) / ∑ k, Real.exp (f k / T)

/-- Expected coordinate for one (sample, channel) row
(`network_utils.py` lines 117-118):
`expected = torch.sum(pos * weight, dim=1)`. -/
def expectedCoord (n : ℕ) (pos f : Fin n → ℝ) (T : ℝ) : ℝ :=
  ∑ j, pos j * softmaxWeight n f T j

/-- The row-major spatial flattening `feature.view(N * C, H * W)`
(`network_utils.py` line 114) of one (sample, channel) slice: flat index
`k` reads position `(k / W, k % W)`. -/
def flattenFeature (W : ℕ) (f : ℕ → ℕ → ℝ) : ℕ → ℝ :=
  fun k => f (k / W) (k % W)

/-- The x output of `SpatialSoftmax.forward` (`network_utils.py` lines
110-121) for one (sample, channel) slice of an NCHW feature map. -/
def spatialSoftmax_x (H W : ℕ) (f : ℕ → ℕ → ℝ) (T : ℝ) : ℝ :=
  expectedCoord (H * W) (fun k => pos_x H k.val) (fun k => flattenFeature W f k.val) T

/-- The y output of `SpatialSoftmax.forward` for one (sample, channel)
slice of an NCHW feature map. -/
def spatialSoftmax_y (H W : ℕ) (f : ℕ → ℕ → ℝ) (T : ℝ) : ℝ :=
  expectedCoord (H * W) (fun k => pos_y H W k.val) (fun k => flattenFeature W f k.val) T

/-- The x output of `SpatialSoftmaxV2.forward` (`network_utils.py` lines
166-188) for one (sample, channel) slice: the same softmax expectation,
then `x_m = ((expected_x + 1) / 2) * (x_max - x_min) + x_min`
(lines 181-184). -/
def spatialSoftmaxV2_x (H W : ℕ) (xr : ℝ × ℝ) (f : ℕ → ℕ → ℝ) (T : ℝ) : ℝ :=
  ((expectedCoord (H * W) (fun k => pos_x H k.val) (fun k => flattenFeature W f k.val) T + 1) / 2)
    * (xr.2 - xr.1) + xr.1

/-- The y output of `SpatialSoftmaxV2.forward`:
`y_m = ((expected_y + 1) / 2) * (y_max - y_min) + y_min` (line 185). -/
def spatialSoftmaxV2_y (H W : ℕ) (yr : ℝ × ℝ) (f : ℕ → ℕ → ℝ) (T : ℝ) : ℝ :=
  ((expectedCoord (H * W) (fun k => pos_y H W k.val) (fun k => flattenFeature W f k.val) T + 1) / 2)
    * (yr.2 - yr.1) + yr.1

/-- Modelled from the spec: the per-axis affine map
`value_m = (normalized + 1) / 2 * (max - min) + min` taking normalized
`[-1, 1]` output into a configured physical range `r = (min, max)`. -/
def specAffineMap (r : ℝ × ℝ) (v : ℝ) : ℝ := (v + 1) / 2 * (r.2 - r.1) + r.1

end

/-- Accumulated loss of a partial training epoch: running total plus the
sum of the remaining per-batch losses. -/
theorem train_epoch_body_fst {σ β : Type} (lossOf : σ → β → ℚ) (optStep : σ → β → σ) :
    ∀ (bs : List β) (t : ℚ) (s : σ),
      (train_epoch_body lossOf optStep (t, s) bs).1
        = t + (batch_losses lossOf optStep s bs).sum
  | [], t, s => by simp [train_epoch_body, batch_losses]
  | b :: bs, t, s => by
      simp [train_epoch_body, batch_losses,
        train_epoch_body_fst lossOf optStep bs]
      ring

/-- The validation body sums the per-batch losses at the unchanged state
and returns that state. -/
theorem validate_epoch_body_eq {σ β : Type} (lossOf : σ → β → ℚ) :
    ∀ (bs : List β) (t : ℚ) (s : σ),
      validate_epoch_body lossOf (t, s) bs = (t + (bs.map (lossOf s)).sum, s)
  | [], t, s => by simp [validate_epoch_body]
  | b :: bs, t, s => by
      simp [validate_epoch_body, validate_epoch_body_eq lossOf bs]
      ring

/-- C4: `SpatialSoftmaxV2.forward` maps each axis by the affine map
`value_m = (normalized + 1) / 2 * (max - min) + min` applied to the
expected normalized coordinate of that axis, independently per axis with
that axis's configured range, and this map sends `-1` to the configured
min and `+1` to the configured max. -/
theorem spatialSoftmaxV2_affine (H W : ℕ) (xr yr : ℝ × ℝ) (f : ℕ → ℕ → ℝ) (T : ℝ) :
    spatialSoftmaxV2_x H W xr f T = specAffineMap xr (spatialSoftmax_x H W f T) ∧
    spatialSoftmaxV2_y H W yr f T = specAffineMap yr (spatialSoftmax_y H W f T) ∧
    (∀ mn mx : ℝ, specAffineMap (mn, mx) (-1) = mn ∧ specAffineMap (mn, mx) 1 = mx) := by
  refine ⟨rfl, rfl, fun mn mx => ⟨?_, ?_⟩⟩ <;> (unfold specAffineMap; ring)

/-- C5: `Normalize.forward` returns `(input - mean) / std` elementwise
with the per-channel stats broadcast over batch, height and width, and
(for nonzero std) multiplying back by std and adding mean reproduces the
input. -/
theorem normalize_elementwise_roundtrip (mean std : Fin 3 → ℚ)
    (x : ℕ → Fin 3 → ℕ → ℕ → ℚ) (hstd : ∀ c, std c ≠ 0) :
    (∀ n c h w, Normalize.forward mean std x n c h w = (x n c h w - mean c) / std c) ∧
    (∀ n c h w, Normalize.forward mean std x n c h w * std c + mean c = x n c h w) := by
  refine ⟨fun n c h w => rfl, fun n c h w => ?_⟩
  have h := hstd c
  field_simp [Normalize.forward]

/-- Witness for C5 at concrete stats and input. -/
theorem normalize_elementwise_roundtrip_witness :
    Normalize.forward (fun _ => (1 : ℚ)) (fun _ => 2) (fun _ _ _ _ => 5) 0 0 0 0
      * 2 + 1 = 5 :=
  (normalize_elementwise_roundtrip (fun _ => 1) (fun _ => 2) (fun _ _ _ _ => 5)
    (fun _ => by norm_num)).2 0 0 0 0

/-- C6: `Normalize.forward` and `NormalizeV2.forward` with the same mean
and std agree on every input batch (the device move in V2 is numerically
the identity; the variants differ only in state persistence). -/
theorem normalize_variants_agree (mean std : Fin 3 → ℚ) (x : ℕ → Fin 3 → ℕ → ℕ → ℚ) :
    Normalize.forward mean std x = NormalizeV2.forward mean std x := rfl

/-- C9: a falsy `temperature` argument (`None` or `0`) yields the fixed
non-trainable temperature `1.0` — exactly as omitting it — and the
softmax then divides by `1`, not by `0`; only a truthy (nonzero)
temperature yields a trainable parameter with that initial value. -/
theorem temperature_falsy_fixed_one :
    initTemperature (some 0) = initTemperature none ∧
    initTemperature none = TempParam.fixed 1 ∧
    tempValue (initTemperature (some 0)) = 1 ∧
    ∀ t : ℚ, t ≠ 0 → initTemperature (some t) = TempParam.trainable t := by
  refine ⟨by simp [initTemperature], rfl, by simp [initTemperature, tempValue],
    fun t ht => ?_⟩
  simp [initTemperature, ht]

/-- Witness for C9 at a concrete nonzero temperature. -/
theorem temperature_falsy_fixed_one_witness :
    initTemperature (some 5) = TempParam.trainable 5 :=
  temperature_falsy_fixed_one.2.2.2 5 (by norm_num)

/-- C7: for a non-empty batch sequence, `train_epoch` and
`validate_epoch` return the arithmetic mean of the per-batch scalar
losses over the number of batches. -/
theorem epoch_loss_is_batch_mean {σ β : Type} (lossOf : σ → β → ℚ)
    (optStep : σ → β → σ) (s₀ : σ) (batches : List β) (hne : batches ≠ []) :
    (train_epoch lossOf optStep s₀ batches).1
        = some ((batch_losses lossOf optStep s₀ batches).sum / batches.length) ∧
    (validate_epoch lossOf s₀ batches).1
        = some ((batches.map (lossOf s₀)).sum / batches.length) := by
  have hlen : batches.length ≠ 0 := by
    simpa using hne
  constructor
  · simp [train_epoch, pyDiv, hlen, train_epoch_body_fst]
  · simp [validate_epoch, pyDiv, hlen, validate_epoch_body_eq]

/-- Witness for C7: two batches with evolving state; the epoch loss is
the mean `(1 + 3) / 2 = 2` of the two per-batch losses. -/
theorem epoch_loss_is_batch_mean_witness :
    (train_epoch (fun s b : ℚ => s + b) (fun s _ => s + 1) 0 [1, 2]).1 = some 2 := by
  have h := (epoch_loss_is_batch_mean (fun s b : ℚ => s + b) (fun s _ => s + 1) 0
    [1, 2] (by simp)).1
  norm_num [batch_losses] at h
  exact h

/-- C8: `validate_epoch` computes its losses with the same loss function
at the initial state, and the state (model parameters and optimizer
state) after the call is exactly the initial state; the definition takes
no optimizer-step argument at all. -/
theorem validate_epoch_frame {σ β : Type} (lossOf : σ → β → ℚ) (s₀ : σ)
    (batches : List β) :
    (validate_epoch lossOf s₀ batches).2 = s₀ ∧
    (validate_epoch lossOf s₀ batches).1
        = pyDiv ((batches.map (lossOf s₀)).sum) batches.length := by
  constructor <;> simp [validate_epoch, validate_epoch_body_eq]

/-- C10: a loader with zero batches makes the epoch functions divide by
zero (`ZeroDivisionError`, here `none`); in particular a validation split
of size `int(len(dataset) * val_ratio) = 0` yields an empty loader, so
every epoch's validation pass fails. -/
theorem empty_loader_div_by_zero {σ β : Type} (lossOf : σ → List β → ℚ)
    (optStep : σ → List β → σ) (s₀ : σ) (n : ℕ) (r : ℚ) (bsz : ℕ) (valData : List β)
    (hlen : (valData.length : ℤ) = val_size n r) (hz : val_size n r = 0) :
    (validate_epoch lossOf s₀ (loaderBatches bsz valData)).1 = none ∧
    (train_epoch lossOf optStep s₀ ([] : List (List β))).1 = none := by
  have hnil : valData = [] := by
    have h0 : valData.length = 0 := by omega
    exact List.eq_nil_of_length_eq_zero h0
  subst hnil
  constructor
  · simp [loaderBatches, validate_epoch, validate_epoch_body, pyDiv]
  · simp [train_epoch, train_epoch_body, pyDiv]

/-- Witness for C10: a dataset of 10 samples with `val_ratio = 1/20`
gives `val_size = int(1/2) = 0`, an empty validation loader, and a
division-by-zero validation loss. -/
theorem empty_loader_div_by_zero_witness :
    (validate_epoch (fun (s : ℚ) (b : List ℚ) => s + b.sum) 0
      (loaderBatches 4 ([] : List ℚ))).1 = none :=
  (empty_loader_div_by_zero (fun (s : ℚ) (b : List ℚ) => s + b.sum) (fun s _ => s)
    0 10 (1 / 20) 4 []
    (by norm_num [val_size, truncToInt, Int.floor_eq_zero_iff])
    (by norm_num [val_size, truncToInt, Int.floor_eq_zero_iff])).1

/-- C2 counterexample: the integer command value `-1` lies outside
`[0, 2)`, yet `select_branch` on a (1, 2, 1) branches tensor does not
signal an indexing error: PyTorch's NumPy-compatible advanced indexing
wraps the negative index and returns `branches[0, 1]`. -/
theorem select_branch_negative_counterexample :
    select_branch [[[(10 : ℚ)], [(20 : ℚ)]]] [(-1 : ℚ)] = some [[(20 : ℚ)]] ∧
    ¬ (0 ≤ (-1 : ℚ)) := by
  refine ⟨?_, by norm_num⟩
  rfl

/-- C2 (amended): with a command entry whose integer coercion falls
outside `[-N, N)` — outside the wraparound range of PyTorch indexing —
`select_branch` signals a fatal indexing error (`none`) rather than
returning a result. -/
theorem select_branch_out_of_bounds_none (branches : List (List (List ℚ)))
    (command : List ℚ) (N : ℕ)
    (hlen : command.length = branches.length)
    (hN : ∀ row ∈ branches, row.length = N)
    (hbad : ∃ c ∈ command, truncToInt c < -(N : ℤ) ∨ (N : ℤ) ≤ truncToInt c) :
    select_branch branches command = none := by
  induction branches generalizing command with
  | nil =>
    cases command with
    | nil => simp at hbad
    | cons c cs => simp at hlen
  | cons row bs ih =>
    cases command with
    | nil => simp at hlen
    | cons c cs =>
      have hrow : row.length = N := hN row (by simp)
      by_cases hcbad : truncToInt c < -(N : ℤ) ∨ (N : ℤ) ≤ truncToInt c
      · have hnone : torchIndex row.length (truncToInt c) = none := by
          unfold torchIndex
          rw [hrow, dif_neg (by omega), dif_neg (by omega)]
        simp [select_branch, hnone]
      · obtain ⟨c', hmem, hbad'⟩ := hbad
        rcases List.mem_cons.mp hmem with hc' | hc'
        · exact absurd (hc' ▸ hbad') hcbad
        · have hrest : select_branch bs cs = none :=
            ih cs (by simpa using hlen) (fun r hr => hN r (by simp [hr]))
              ⟨c', hc', hbad'⟩
          cases htI : torchIndex row.length (truncToInt c) <;>
            simp [select_branch, htI, hrest]

/-- Witness for the amended C2: command value `5` on a (1, 2, 1) tensor
is outside `[-2, 2)` and makes `select_branch` fail. -/
theorem select_branch_out_of_bounds_witness :
    select_branch [[[(10 : ℚ)], [(20 : ℚ)]]] [(5 : ℚ)] = none :=
  select_branch_out_of_bounds_none [[[(10 : ℚ)], [(20 : ℚ)]]] [(5 : ℚ)] 2 rfl
    (by intro row hr; rw [List.mem_singleton] at hr; rw [hr]; rfl)
    ⟨5, List.mem_singleton.mpr rfl, Or.inr (by norm_num [truncToInt])⟩

/-- C3: for a (B, N, D) branches tensor and a command vector of length B
all of whose entries lie in `[0, N)`, `select_branch` succeeds and row
`i` of the result is `branches[i][int(command[i])]`, the command entries
being coerced to integer indices (`command.long()`) before use. -/
theorem select_branch_valid_spec (branches : List (List (List ℚ)))
    (command : List ℚ) (N : ℕ)
    (hlen : command.length = branches.length)
    (hN : ∀ row ∈ branches, row.length = N)
    (hc : ∀ c ∈ command, 0 ≤ c ∧ c < (N : ℚ)) :
    ∃ out : List (List ℚ), select_branch branches command = some out ∧
      out.length = branches.length ∧
      ∀ i < branches.length,
        out.getD i []
          = (branches.getD i []).getD (truncToInt (command.getD i 0)).toNat [] := by
  induction branches generalizing command with
  | nil =>
    cases command with
    | nil => exact ⟨[], rfl, rfl, by intro i hi; simp at hi⟩
    | cons c cs => simp at hlen
  | cons row bs ih =>
    cases command with
    | nil => simp at hlen
    | cons c cs =>
      have hrow : row.length = N := hN row (by simp)
      have hc0 : 0 ≤ c ∧ c < (N : ℚ) := hc c (by simp)
      have htr0 : truncToInt c = ⌊c⌋ := by unfold truncToInt; rw [if_pos hc0.1]
      have htr : 0 ≤ truncToInt c ∧ truncToInt c < (N : ℤ) := by
        rw [htr0]
        exact ⟨Int.floor_nonneg.mpr hc0.1, Int.floor_lt.mpr (by exact_mod_cast hc0.2)⟩
      have hlt : (truncToInt c).toNat < row.length := by omega
      have hidx : torchIndex row.length (truncToInt c)
          = some ⟨(truncToInt c).toNat, hlt⟩ := by
        unfold torchIndex
        rw [dif_pos ⟨htr.1, by omega⟩]
      obtain ⟨out, hout, hlen2, hspec⟩ :=
        ih cs (by simpa using hlen) (fun r hr => hN r (by simp [hr]))
          (fun x hx => hc x (by simp [hx]))
      refine ⟨row.get ⟨(truncToInt c).toNat, hlt⟩ :: out, ?_, by simpa using hlen2, ?_⟩
      · simp [select_branch, hidx, hout]
      · intro i hi
        cases i with
        | zero =>
          simpa using (List.getD_eq_getElem row [] hlt).symm
        | succ j =>
          have hj : j < bs.length := by simpa using hi
          simpa using hspec j hj

/-- Witness for C3: a (2, 2, 1) branches tensor with commands `[1, 0]`
selects `branches[0][1]` and `branches[1][0]`. -/
theorem select_branch_valid_witness :
    ∃ out : List (List ℚ),
      select_branch [[[(1 : ℚ)], [(2 : ℚ)]], [[(3 : ℚ)], [(4 : ℚ)]]] [(1 : ℚ), (0 : ℚ)]
        = some out ∧
      out.length
        = ([[[(1 : ℚ)], [(2 : ℚ)]], [[(3 : ℚ)], [(4 : ℚ)]]] : List (List (List ℚ))).length ∧
      ∀ i < ([[[(1 : ℚ)], [(2 : ℚ)]], [[(3 : ℚ)], [(4 : ℚ)]]] : List (List (List ℚ))).length,
        out.getD i []
          = (([[[(1 : ℚ)], [(2 : ℚ)]], [[(3 : ℚ)], [(4 : ℚ)]]] :
                List (List (List ℚ))).getD i []).getD
              (truncToInt ([(1 : ℚ), (0 : ℚ)].getD i 0)).toNat [] :=
  select_branch_valid_spec [[[(1 : ℚ)], [(2 : ℚ)]], [[(3 : ℚ)], [(4 : ℚ)]]]
    [(1 : ℚ), (0 : ℚ)] 2 rfl
    (by
      intro row hr
      simp only [List.mem_cons, List.mem_singleton] at hr
      rcases hr with h | h | h <;> first | (rw [h]; rfl) | exact absurd h (by simp))
    (by
      intro c hc
      simp only [List.mem_cons, List.mem_singleton] at hc
      rcases hc with h | h | h <;> first | (rw [h]; norm_num) | exact absurd h (by simp))

/-- Proof abbreviation: the softmax numerator renormalized by the entry
at `j₀`, `exp ((f j - f j₀) / T)`. -/
noncomputable def peakShift {n : ℕ} (f : Fin n → ℝ) (j₀ : Fin n) (T : ℝ) (j : Fin n) : ℝ :=
  Real.exp ((f j - f j₀) / T)

theorem peakShift_self {n : ℕ} (f : Fin n → ℝ) (j₀ : Fin n) (T : ℝ) :
    peakShift f j₀ T j₀ = 1 := by simp [peakShift]

/-- Entries strictly below the peak get vanishing renormalized numerator
as the temperature tends to `0⁺`. -/
theorem peakShift_tendsto_zero {n : ℕ} (f : Fin n → ℝ) (j₀ j : Fin n)
    (hj : f j < f j₀) :
    Tendsto (fun T => peakShift f j₀ T j) (𝓝[>] (0 : ℝ)) (𝓝 0) := by
  have hneg : f j - f j₀ < 0 := sub_neg.mpr hj
  have h1 : Tendsto (fun T : ℝ => (f j - f j₀) / T) (𝓝[>] (0 : ℝ)) atBot := by
    simpa [div_eq_mul_inv] using tendsto_inv_zero_atTop.const_mul_atTop_of_neg hneg
  exact Real.tendsto_exp_atBot.comp h1

/-- The softmax weight is invariant under shifting all logits by the
value at `j₀`. -/
theorem softmaxWeight_eq_peakShift {n : ℕ} (f : Fin n → ℝ) (j₀ : Fin n)
    (T : ℝ) (j : Fin n) :
    softmaxWeight n f T j = peakShift f j₀ T j / ∑ k, peakShift f j₀ T k := by
  have hexp : ∀ k : Fin n, Real.exp (f k / T)
      = Real.exp (f j₀ / T) * peakShift f j₀ T k := by
    intro k
    unfold peakShift
    rw [← Real.exp_add, div_add_div_same]
    congr 1
    ring
  unfold softmaxWeight
  rw [hexp j, Finset.sum_congr rfl fun k _ => hexp k, ← Finset.mul_sum]
  exact mul_div_mul_left _ _ (Real.exp_ne_zero _)

/-- As the temperature tends to `0⁺`, the softmax-weighted expectation of
any coordinate vector over a logit row with a strict maximum at `j₀`
tends to the coordinate at `j₀`. -/
theorem expectedCoord_tendsto_peak {n : ℕ} (pos f : Fin n → ℝ) (j₀ : Fin n)
    (hmax : ∀ j, j ≠ j₀ → f j < f j₀) :
    Tendsto (fun T => expectedCoord n pos f T) (𝓝[>] (0 : ℝ)) (𝓝 (pos j₀)) := by
  have hterm : ∀ j : Fin n, Tendsto (fun T => peakShift f j₀ T j) (𝓝[>] (0 : ℝ))
      (𝓝 (if j = j₀ then 1 else 0)) := by
    intro j
    by_cases hj : j = j₀
    · subst hj
      simp only [if_pos rfl, peakShift_self]
      exact tendsto_const_nhds
    · simpa [hj] using peakShift_tendsto_zero f j₀ j (hmax j hj)
  have hS : Tendsto (fun T => ∑ k, peakShift f j₀ T k) (𝓝[>] (0 : ℝ)) (𝓝 1) := by
    have h := tendsto_finset_sum Finset.univ fun j (_ : j ∈ Finset.univ) => hterm j
    simpa [Finset.sum_ite_eq'] using h
  have hweight : ∀ j : Fin n, Tendsto (fun T => softmaxWeight n f T j)
      (𝓝[>] (0 : ℝ)) (𝓝 (if j = j₀ then 1 else 0)) := by
    intro j
    have h := (hterm j).div hS one_ne_zero
    simpa [softmaxWeight_eq_peakShift f j₀] using h
  have hfinal := tendsto_finset_sum Finset.univ
    fun j (_ : j ∈ Finset.univ) => (hweight j).const_mul (pos j)
  unfold expectedCoord
  simpa [mul_ite, Finset.sum_ite_eq'] using hfinal

/-- C1: for a feature map whose activation is concentrated at the single
spatial position `(h, w)` — positive there and zero at every other valid
position — the `(x, y)` output of `SpatialSoftmax.forward` for that
(sample, channel) converges, as the temperature tends to `0⁺`, to the
grid coordinate stored at that position's flat index `h * W + w` in the
precomputed `[-1, 1]` coordinate grid of length `H * W` (the same
row-major flat index at which the feature map's spatial flattening places
position `(h, w)`). -/
theorem spatialSoftmax_peak_limit (H W : ℕ) (f : ℕ → ℕ → ℝ) (h w : ℕ)
    (hh : h < H) (hw : w < W) (hpos : 0 < f h w)
    (hzero : ∀ h' w', h' < H → w' < W → (h', w') ≠ (h, w) → f h' w' = 0) :
    Tendsto (fun T => spatialSoftmax_x H W f T) (𝓝[>] (0 : ℝ))
      (𝓝 (pos_x H (h * W + w))) ∧
    Tendsto (fun T => spatialSoftmax_y H W f T) (𝓝[>] (0 : ℝ))
      (𝓝 (pos_y H W (h * W + w))) := by
  have hW0 : 0 < W := Nat.lt_of_le_of_lt (Nat.zero_le w) hw
  have hk : h * W + w < H * W := by
    have h1 : (h + 1) * W ≤ H * W := Nat.mul_le_mul_right W hh
    have h2 : (h + 1) * W = h * W + W := by ring
    omega
  have he0 : h * W + w = W * h + w := by ring
  have he1 : (h * W + w) / W = h := by
    rw [he0, Nat.mul_add_div hW0, Nat.div_eq_of_lt hw, Nat.add_zero]
  have he2 : (h * W + w) % W = w := by
    rw [he0, Nat.mul_add_mod]
    exact Nat.mod_eq_of_lt hw
  have hflat : ∀ k : Fin (H * W), k ≠ (⟨h * W + w, hk⟩ : Fin (H * W)) →
      flattenFeature W f k.val < flattenFeature W f (h * W + w) := by
    intro k hkne
    have hdiv : k.val / W < H := (Nat.div_lt_iff_lt_mul hW0).mpr k.isLt
    have hmod : k.val % W < W := Nat.mod_lt _ hW0
    have hne : (k.val / W, k.val % W) ≠ (h, w) := by
      intro heq
      apply hkne
      apply Fin.ext
      show k.val = h * W + w
      have e1 : k.val / W = h := congrArg Prod.fst heq
      have e2 : k.val % W = w := congrArg Prod.snd heq
      have e3 := Nat.div_add_mod k.val W
      rw [e1, e2] at e3
      have e4 : W * h = h * W := Nat.mul_comm W h
      omega
    have hz : flattenFeature W f k.val = 0 :=
      hzero (k.val / W) (k.val % W) hdiv hmod hne
    have hp : flattenFeature W f (h * W + w) = f h w := by
      unfold flattenFeature
      rw [he1, he2]
    rw [hz, hp]
    exact hpos
  constructor
  · exact expectedCoord_tendsto_peak (fun k : Fin (H * W) => pos_x H k.val)
      (fun k : Fin (H * W) => flattenFeature W f k.val) ⟨h * W + w, hk⟩
      fun j hj => hflat j hj
  · exact expectedCoord_tendsto_peak (fun k : Fin (H * W) => pos_y H W k.val)
      (fun k : Fin (H * W) => flattenFeature W f k.val) ⟨h * W + w, hk⟩
      fun j hj => hflat j hj

/-- A concrete 2×3 feature map with all activation at position (1, 2). -/
noncomputable def peakFeature : ℕ → ℕ → ℝ :=
  fun a b => if a = 1 ∧ b = 2 then 1 else 0

/-- Witness for C1 on the concrete peaked feature map. -/
theorem spatialSoftmax_peak_limit_witness :
    Tendsto (fun T => spatialSoftmax_x 2 3 peakFeature T) (𝓝[>] (0 : ℝ))
      (𝓝 (pos_x 2 (1 * 3 + 2))) ∧
    Tendsto (fun T => spatialSoftmax_y 2 3 peakFeature T) (𝓝[>] (0 : ℝ))
      (𝓝 (pos_y 2 3 (1 * 3 + 2))) :=
  spatialSoftmax_peak_limit 2 3 peakFeature 1 2 (by norm_num) (by norm_num)
    (by norm_num [peakFeature])
    (by
      intro h' w' hh' hw' hne
      unfold peakFeature
      rw [if_neg]
      intro hcon
      exact hne (by rw [hcon.1, hcon.2]))
